import Mathlib

/-!
Shallow embedding of the aggregation and insights engine of the
smart expense tracker (src/app.js), together with proofs about the
time-bucket utilities, the expense/budget stores and the insight rules.

Modelling conventions:
* Calendar dates are integer day numbers: days since 1970-01-01 (which
  was a Thursday, so JavaScript `getDay()` of day `n` is `(n + 4) % 7`,
  with Sunday = 0).  `Date.setDate`/`getDate` arithmetic in the source
  only ever shifts a date by a number of days, which on day numbers is
  integer addition.  The local time zone is taken to be UTC, so the
  `toISOString().split('T')[0]` date key of a day number is the day
  number itself.
* Monetary amounts are rationals (idealised JavaScript numbers).
* JavaScript objects used as maps (`categoryTotals`, the budget maps)
  are insertion-ordered association lists; all keys involved are
  non-integer-like strings, for which JavaScript preserves insertion
  order and `Object.keys` iterates in that order.
* JavaScript `NaN` (and `undefined` flowing through numeric operations)
  is modelled as `none : Option ℤ` in the string-level embedding of
  `getPreviousMonth`.
* `Number.prototype.toFixed(0)` on a rational is `round` (nearest
  integer, ties towards the larger integer, which is `⌊x + 1/2⌋`).
-/

namespace ExpenseTracker

/-- JavaScript `getDay()` of a day number: 0 = Sunday, ..., 6 = Saturday.
Day 0 (1970-01-01) was a Thursday, i.e. 4. -/
def dayOfWeek (n : ℤ) : ℤ := (n + 4) % 7

/-- `Utility.getStartOfWeek` (src/app.js:63-70): `diff = getDate() - day +
(day === 0 ? -6 : 1)`, then `setDate(diff)`, i.e. the date moves by
`-day + (day === 0 ? -6 : 1)` days. -/
def getStartOfWeek (n : ℤ) : ℤ :=
  let day := dayOfWeek n
  n - day + (if day = 0 then -6 else 1)

/-- `Utility.getPreviousWeek` (src/app.js:85-89): `setDate(getDate() - 7)`. -/
def getPreviousWeek (n : ℤ) : ℤ := n - 7

/-- The year/month arithmetic of `Utility.getPreviousMonth`
(src/app.js:80-81), on already-parsed numeric components. -/
def getPreviousMonthYM (year month : ℤ) : ℤ × ℤ :=
  (if month = 1 then year - 1 else year, if month = 1 then 12 else month - 1)

/-- JavaScript `dateKey.split('-')` on the character list of the key. -/
def splitDashAux : List Char → List (List Char)
  | [] => [[]]
  | c :: rest =>
    let r := splitDashAux rest
    if c = '-' then [] :: r
    else
      match r with
      | [] => [[c]]
      | g :: gs => (c :: g) :: gs

/-- Value of a digit string, most significant digit first. -/
def natOfDigits (cs : List Char) : ℕ :=
  cs.foldl (fun n c => 10 * n + (c.toNat - 48)) 0

/-- JavaScript `Number(s)` restricted to the shapes that occur for
month-key fields: the empty string is `0`, a digit string is its value,
anything else is `NaN` (`none`). -/
def jsNumber (cs : List Char) : Option ℤ :=
  if cs = [] then some 0
  else if cs.all (fun c => c.isDigit) then some (natOfDigits cs)
  else none

/-- JavaScript string interpolation / `String(x)` of a number-or-NaN. -/
def renderNum : Option ℤ → List Char
  | none => ['N', 'a', 'N']
  | some n => (toString n).data

/-- JavaScript `padStart(2, '0')`. -/
def padStart2 (cs : List Char) : List Char :=
  if cs.length ≥ 2 then cs else List.replicate (2 - cs.length) '0' ++ cs

/-- `Utility.getPreviousMonth` (src/app.js:78-83) at the string level:
`const [year, month] = dateKey.split('-').map(Number)`, then
`prevMonth = month === 1 ? 12 : month - 1`,
`prevYear = month === 1 ? year - 1 : year`, rendered as
`prevYear + "-" + String(prevMonth).padStart(2, '0')`.  A missing or
unparseable component behaves as `NaN` (`none`). -/
def getPreviousMonth (dateKey : String) : String :=
  let nums := (splitDashAux dateKey.data).map jsNumber
  let year := nums.getD 0 none
  let month := nums.getD 1 none
  let prevMonth : Option ℤ := if month = some 1 then some 12 else month.map (fun m => m - 1)
  let prevYear : Option ℤ := if month = some 1 then year.map (fun y => y - 1) else year
  ⟨renderNum prevYear ++ ('-' :: padStart2 (renderNum prevMonth))⟩

/-- An expense record (src/app.js:104): id, amount, category, description
and a date (here: a day number). -/
structure Expense where
  id : String
  amount : ℚ
  category : String
  description : String
  date : ℤ
  deriving DecidableEq

/-- `ExpenseManager.getExpensesByWeek` (src/app.js:158-168): keep the
expenses whose date lies between the week start (midnight) and the week
start plus 6 days (23:59:59.999); on day numbers that is the inclusive
window `[dateKey, dateKey + 6]`. -/
def getExpensesByWeek (expenses : List Expense) (dateKey : ℤ) : List Expense :=
  expenses.filter (fun e => decide (dateKey ≤ e.date) && decide (e.date ≤ dateKey + 6))

/-- One step of the `reduce` building `categoryTotals`
(src/app.js:221-224): `totals[e.category] = (totals[e.category] || 0) +
e.amount` updates the entry in place when the key is present and appends
it otherwise (JavaScript object insertion order). -/
def addToCategory : List (String × ℚ) → String → ℚ → List (String × ℚ)
  | [], c, amt => [(c, amt)]
  | (k, v) :: rest, c, amt =>
    if k = c then (k, v + amt) :: rest else (k, v) :: addToCategory rest c amt

/-- The result of `InsightsEngine.calculateTotals`. -/
structure Totals where
  total : ℚ
  categoryTotals : List (String × ℚ)
  deriving DecidableEq

/-- `InsightsEngine.calculateTotals` (src/app.js:219-226). -/
def calculateTotals (expenses : List Expense) : Totals :=
  { total := expenses.foldl (fun sum e => sum + e.amount) 0
    categoryTotals := expenses.foldl (fun totals e => addToCategory totals e.category e.amount) [] }

/-- JavaScript `totals[k]` on an association list (with the `|| 0`
default used throughout the source for absent keys). -/
def lookupD (l : List (String × ℚ)) (k : String) : ℚ :=
  match l with
  | [] => 0
  | (k', v) :: rest => if k' = k then v else lookupD rest k

/-- The `Object.keys(categoryTotals).reduce((a, b) => totals[a] >
totals[b] ? a : b)` computation of src/app.js:303; `reduce` without an
initial value starts from the first key (none when there are no keys). -/
def topCategoryOf (ct : List (String × ℚ)) : Option String :=
  match ct.map Prod.fst with
  | [] => none
  | k :: ks => some (ks.foldl (fun a b => if lookupD ct a > lookupD ct b then a else b) k)

/-- The insight messages of `InsightsEngine.generateInsights`
(src/app.js:268-313), with their variable numeric/category content as
structured data (currency/locale formatting is external). -/
inductive Insight where
  | weeklyHigher (percent : ℤ)
  | weeklyLower (percent : ℤ)
  | startComparing
  | budgetExcellent (percentUsed : ℤ) (remaining : ℚ)
  | budgetCritical (overage : ℚ)
  | budgetCaution (percentUsed : ℤ)
  | setBudgetTip
  | topCategory (category : String) (amount : ℚ)
  | savingsSuggestion (category : String)
  deriving DecidableEq

/-- Position class of each insight kind in the fixed rule sequence:
0 = weekly comparison, 1 = budget status, 2 = top-category observation,
3 = savings suggestion. -/
def rank : Insight → ℕ
  | .weeklyHigher _ => 0
  | .weeklyLower _ => 0
  | .startComparing => 0
  | .budgetExcellent _ _ => 1
  | .budgetCritical _ => 1
  | .budgetCaution _ => 1
  | .setBudgetTip => 1
  | .topCategory _ _ => 2
  | .savingsSuggestion _ => 3

/-- Rule 1, weekly comparison (src/app.js:274-284). -/
def weeklyInsights (current last : Totals) : List Insight :=
  if current.total > 0 ∧ last.total > 0 then
    let diff := current.total - last.total
    let percentDiff := |diff| / last.total * 100
    if diff > 0 then [.weeklyHigher (round percentDiff)]
    else if diff < 0 then [.weeklyLower (round percentDiff)]
    else []
  else if current.total > 0 ∧ last.total = 0 then [.startComparing]
  else []

/-- Rule 2, budget status (src/app.js:287-299). -/
def budgetInsights (budget : ℚ) (current : Totals) : List Insight :=
  if budget > 0 then
    let remaining := budget - current.total
    let percentUsed := current.total / budget * 100
    if remaining ≥ 0 ∧ percentUsed < 80 then [.budgetExcellent (round percentUsed) remaining]
    else if remaining < 0 then [.budgetCritical |remaining|]
    else if percentUsed ≥ 80 then [.budgetCaution (round percentUsed)]
    else []
  else [.setBudgetTip]

/-- Rule 3, top category plus the hard-coded savings suggestion
(src/app.js:302-310). -/
def topInsights (ct : List (String × ℚ)) : List Insight :=
  match topCategoryOf ct with
  | none => []
  | some t =>
    Insight.topCategory t (lookupD ct t) ::
      (if t = "Entertainment" ∨ t = "Shopping" then [Insight.savingsSuggestion t] else [])

/-- `InsightsEngine.generateInsights` (src/app.js:268-313), as a function
of the weekly summary totals, the current-month totals and the current
monthly budget; the three rule blocks push onto `insights` in order. -/
def generateInsights (weeklyCurrent weeklyLast monthlyCurrent : Totals) (budget : ℚ) : List Insight :=
  weeklyInsights weeklyCurrent weeklyLast ++ budgetInsights budget monthlyCurrent ++
    topInsights monthlyCurrent.categoryTotals

/-- The budget store state (src/app.js:180): a map from period type to a
map from period key to amount; only the two valid types are reachable. -/
structure Budgets where
  monthly : List (String × ℚ)
  weekly : List (String × ℚ)
  deriving DecidableEq

/-- JavaScript `this.budgets[type][key] = amount`: overwrite in place or
append. -/
def setEntry : List (String × ℚ) → String → ℚ → List (String × ℚ)
  | [], k, v => [(k, v)]
  | (k', v') :: rest, k, v =>
    if k' = k then (k', v) :: rest else (k', v') :: setEntry rest k v

/-- `BudgetManager.setBudget` (src/app.js:188-197): reject any type other
than `monthly`/`weekly`, otherwise store the amount under `(type, key)`.
Returns the source's boolean result together with the new state. -/
def setBudget (b : Budgets) (type key : String) (amount : ℚ) : Bool × Budgets :=
  if type ≠ "monthly" ∧ type ≠ "weekly" then (false, b)
  else if type = "monthly" then (true, { b with monthly := setEntry b.monthly key amount })
  else (true, { b with weekly := setEntry b.weekly key amount })

/-- `BudgetManager.getBudget` (src/app.js:199-201):
`this.budgets[type]?.[key] || 0`. -/
def getBudget (b : Budgets) (type key : String) : ℚ :=
  if type = "monthly" then lookupD b.monthly key
  else if type = "weekly" then lookupD b.weekly key
  else 0

/-! ### Helper lemmas about `calculateTotals` -/

lemma foldl_add_amount (l : List Expense) (s : ℚ) :
    l.foldl (fun sum e => sum + e.amount) s = s + (l.map Expense.amount).sum := by
  induction l generalizing s with
  | nil => simp
  | cons e l ih => simp [ih]; ring

lemma snd_sum_addToCategory (t : List (String × ℚ)) (c : String) (a : ℚ) :
    ((addToCategory t c a).map Prod.snd).sum = (t.map Prod.snd).sum + a := by
  induction t with
  | nil => simp [addToCategory]
  | cons p rest ih =>
    obtain ⟨k, v⟩ := p
    by_cases h : k = c
    · simp [addToCategory, h]; ring
    · simp [addToCategory, h, ih]; ring

lemma mem_keys_addToCategory (t : List (String × ℚ)) (c : String) (a : ℚ) (c' : String) :
    c' ∈ (addToCategory t c a).map Prod.fst ↔ c' ∈ t.map Prod.fst ∨ c' = c := by
  induction t with
  | nil => simp [addToCategory, eq_comm]
  | cons p rest ih =>
    obtain ⟨k, v⟩ := p
    by_cases h : k = c
    · subst h; simp [addToCategory]; tauto
    · simp [addToCategory, h, ih]; tauto

lemma snd_sum_foldl_categories (l : List Expense) (t : List (String × ℚ)) :
    ((l.foldl (fun totals e => addToCategory totals e.category e.amount) t).map Prod.snd).sum
      = (t.map Prod.snd).sum + (l.map Expense.amount).sum := by
  induction l generalizing t with
  | nil => simp
  | cons e l ih => simp [ih, snd_sum_addToCategory]; ring

lemma mem_keys_foldl_categories (l : List Expense) (t : List (String × ℚ)) (c' : String) :
    c' ∈ (l.foldl (fun totals e => addToCategory totals e.category e.amount) t).map Prod.fst
      ↔ c' ∈ t.map Prod.fst ∨ ∃ r ∈ l, r.category = c' := by
  induction l generalizing t with
  | nil => simp
  | cons e l ih =>
    rw [List.foldl_cons, ih, mem_keys_addToCategory]
    constructor
    · rintro ((h | h) | ⟨r, hr, hc⟩)
      · exact Or.inl h
      · exact Or.inr ⟨e, List.mem_cons_self e l, h.symm⟩
      · exact Or.inr ⟨r, List.mem_cons_of_mem e hr, hc⟩
    · rintro (h | ⟨r, hr, hc⟩)
      · exact Or.inl (Or.inl h)
      · rcases List.mem_cons.mp hr with rfl | hr
        · exact Or.inl (Or.inr hc.symm)
        · exact Or.inr ⟨r, hr, hc⟩

/-- C4: `calculateTotals(records).total` is the sum of the amounts, the
values of `categoryTotals` sum to the same total, a category with no
matching record is absent from `categoryTotals`, and the empty list
gives total 0 and the empty mapping. -/
theorem calculateTotals_spec (records : List Expense) :
    (calculateTotals records).total = (records.map Expense.amount).sum
    ∧ ((calculateTotals records).categoryTotals.map Prod.snd).sum = (calculateTotals records).total
    ∧ (∀ c : String, (∀ r ∈ records, r.category ≠ c) →
        c ∉ (calculateTotals records).categoryTotals.map Prod.fst)
    ∧ calculateTotals [] = ⟨0, []⟩ := by
  refine ⟨?_, ?_, ?_, rfl⟩
  · simpa using foldl_add_amount records 0
  · simp [calculateTotals, snd_sum_foldl_categories, foldl_add_amount]
  · intro c hc
    rw [calculateTotals, mem_keys_foldl_categories]
    push_neg
    exact ⟨by simp, fun r hr => hc r hr⟩

/-- Witness for C4 at the records of end-to-end scenario A: no record has
category `Housing`, so `Housing` is absent from the mapping. -/
theorem calculateTotals_spec_witness :
    (∀ r ∈ [Expense.mk "a1" (30100/200) "Food" "Lunch at cafe" 20000,
            Expense.mk "a2" (65099/100) "Shopping" "New shirt" 20000], r.category ≠ "Housing")
    ∧ "Housing" ∉ (calculateTotals
        [Expense.mk "a1" (30100/200) "Food" "Lunch at cafe" 20000,
         Expense.mk "a2" (65099/100) "Shopping" "New shirt" 20000]).categoryTotals.map Prod.fst :=
  ⟨by decide,
   (calculateTotals_spec
      [Expense.mk "a1" (30100/200) "Food" "Lunch at cafe" 20000,
       Expense.mk "a2" (65099/100) "Shopping" "New shirt" 20000]).2.2.1 "Housing" (by decide)⟩

/-- C5: `getStartOfWeek` returns the Monday on or before the given day
(in particular a Sunday maps 6 days back), and it is the greatest such
Monday. -/
theorem getStartOfWeek_monday (n : ℤ) :
    dayOfWeek (getStartOfWeek n) = 1
    ∧ getStartOfWeek n ≤ n
    ∧ n < getStartOfWeek n + 7
    ∧ (∀ m : ℤ, dayOfWeek m = 1 → m ≤ n → m ≤ getStartOfWeek n)
    ∧ (dayOfWeek n = 0 → getStartOfWeek n = n - 6) := by
  simp only [getStartOfWeek, dayOfWeek]
  split_ifs with h
  · exact ⟨by omega, by omega, by omega, fun m hm hle => by omega, fun _ => by omega⟩
  · exact ⟨by omega, by omega, by omega, fun m hm hle => by omega, fun h0 => by omega⟩

/-- Witness for C5 at day 3 (1970-01-04, a Sunday): the week start is 6
days earlier. -/
theorem getStartOfWeek_monday_witness :
    dayOfWeek 3 = 0 ∧ getStartOfWeek 3 = 3 - 6 :=
  ⟨by decide, (getStartOfWeek_monday 3).2.2.2.2 (by decide)⟩

/-- C6: a record belongs to `getExpensesByWeek` exactly when its date is
in the inclusive window `[weekKey, weekKey + 6]`; the boundary day
`weekKey + 6` is included and `weekKey + 7` is excluded. -/
theorem getExpensesByWeek_window (expenses : List Expense) (w : ℤ) (r : Expense) :
    (r ∈ getExpensesByWeek expenses w ↔ r ∈ expenses ∧ w ≤ r.date ∧ r.date ≤ w + 6)
    ∧ (r ∈ expenses → r.date = w + 6 → r ∈ getExpensesByWeek expenses w)
    ∧ (r.date = w + 7 → r ∉ getExpensesByWeek expenses w) := by
  have hmem : r ∈ getExpensesByWeek expenses w ↔ r ∈ expenses ∧ w ≤ r.date ∧ r.date ≤ w + 6 := by
    simp [getExpensesByWeek, List.mem_filter]
  refine ⟨hmem, ?_, ?_⟩
  · intro h1 h2
    exact hmem.mpr ⟨h1, by omega, by omega⟩
  · intro h2 hmem'
    have := (hmem.mp hmem').2.2
    omega

/-- Witness for C6: a record dated exactly `weekKey + 6` is in the week
of `weekKey = 0`. -/
theorem getExpensesByWeek_window_witness :
    (Expense.mk "d1" 10 "Food" "x" 6 ∈ [Expense.mk "d1" 10 "Food" "x" 6])
    ∧ (Expense.mk "d1" 10 "Food" "x" 6).date = 0 + 6
    ∧ Expense.mk "d1" 10 "Food" "x" 6 ∈ getExpensesByWeek [Expense.mk "d1" 10 "Food" "x" 6] 0 :=
  ⟨by decide, by decide,
   (getExpensesByWeek_window [Expense.mk "d1" 10 "Food" "x" 6] 0
      (Expense.mk "d1" 10 "Food" "x" 6)).2.1 (by decide) (by decide)⟩

/-- C7: `getPreviousMonth` maps a valid year-month key to the month
immediately before it (the linear month index drops by exactly one and
the month part stays in 1..12), rolling over the year boundary:
`"2025-01"` maps to `"2024-12"`, and other months keep the year with the
month decremented and zero-padded. -/
theorem getPreviousMonth_spec :
    (∀ y m : ℤ, 1 ≤ m → m ≤ 12 →
      12 * (getPreviousMonthYM y m).1 + (getPreviousMonthYM y m).2 = 12 * y + m - 1
      ∧ 1 ≤ (getPreviousMonthYM y m).2 ∧ (getPreviousMonthYM y m).2 ≤ 12)
    ∧ getPreviousMonth "2025-01" = "2024-12"
    ∧ getPreviousMonth "2025-10" = "2025-09" := by
  refine ⟨?_, by decide, by decide⟩
  intro y m h1 h2
  by_cases h : m = 1
  · subst h; simp [getPreviousMonthYM]; omega
  · simp only [getPreviousMonthYM, if_neg h]
    omega

/-- Witness for C7 at the year boundary: `getPreviousMonthYM 2025 1`
satisfies the index equation. -/
theorem getPreviousMonth_spec_witness :
    (1 : ℤ) ≤ 1 ∧ (1 : ℤ) ≤ 12
    ∧ 12 * (getPreviousMonthYM 2025 1).1 + (getPreviousMonthYM 2025 1).2 = 12 * 2025 + 1 - 1 :=
  ⟨by decide, by decide, (getPreviousMonth_spec.1 2025 1 (by decide) (by decide)).1⟩

/-- C9 (failing input): on the malformed key `"garbage"` the source's
`getPreviousMonth` does not fail fast; it silently returns the corrupted
bucket key `"NaN-NaN"`. -/
theorem getPreviousMonth_nan_corruption :
    getPreviousMonth "garbage" = "NaN-NaN" := by decide

/-! ### Helper lemmas about the insight rule blocks -/

lemma weeklyInsights_filter_not_zero (c l : Totals) (p : Insight → Bool)
    (hp : ∀ z : ℤ, p (.weeklyHigher z) = false ∧ p (.weeklyLower z) = false
            ∧ p .startComparing = false) :
    (weeklyInsights c l).filter p = [] := by
  simp only [weeklyInsights]
  split_ifs <;> simp [List.filter, (hp 0).2.2, fun z => (hp z).1, fun z => (hp z).2.1]

lemma weeklyInsights_filter_zero (c l : Totals) :
    (weeklyInsights c l).filter (fun i => rank i == 0) = weeklyInsights c l := by
  simp only [weeklyInsights]
  split_ifs <;> rfl

lemma budgetInsights_filter_not_one (b : ℚ) (m : Totals) (p : Insight → Bool)
    (hp : ∀ z : ℤ, ∀ q : ℚ, p (.budgetExcellent z q) = false ∧ p (.budgetCritical q) = false
            ∧ p (.budgetCaution z) = false ∧ p .setBudgetTip = false) :
    (budgetInsights b m).filter p = [] := by
  simp only [budgetInsights]
  split_ifs <;>
    simp [List.filter, (hp 0 0).2.2.2, fun z q => (hp z q).1, fun q => (hp 0 q).2.1,
      fun z => (hp z 0).2.2.1]

lemma budgetInsights_filter_one (b : ℚ) (m : Totals) :
    (budgetInsights b m).filter (fun i => rank i == 1) = budgetInsights b m := by
  simp only [budgetInsights]
  split_ifs <;> rfl

lemma topInsights_filter_not_top (ct : List (String × ℚ)) (p : Insight → Bool)
    (hp : ∀ s : String, ∀ q : ℚ, p (.topCategory s q) = false ∧ p (.savingsSuggestion s) = false) :
    (topInsights ct).filter p = [] := by
  unfold topInsights
  cases topCategoryOf ct with
  | none => rfl
  | some t =>
    dsimp only
    split_ifs <;> simp [List.filter, (hp t 0).2, (hp t (lookupD ct t)).1]

lemma generateInsights_filter_zero (wc wl mc : Totals) (budget : ℚ) :
    (generateInsights wc wl mc budget).filter (fun i => rank i == 0) = weeklyInsights wc wl := by
  unfold generateInsights
  rw [List.filter_append, List.filter_append, weeklyInsights_filter_zero,
    budgetInsights_filter_not_one budget mc _ (fun z q => by simp [rank]),
    topInsights_filter_not_top _ _ (fun s q => by simp [rank])]
  simp

lemma generateInsights_filter_one (wc wl mc : Totals) (budget : ℚ) :
    (generateInsights wc wl mc budget).filter (fun i => rank i == 1) = budgetInsights budget mc := by
  unfold generateInsights
  rw [List.filter_append, List.filter_append, budgetInsights_filter_one,
    weeklyInsights_filter_not_zero wc wl _ (fun z => by simp [rank]),
    topInsights_filter_not_top _ _ (fun s q => by simp [rank])]
  simp

lemma generateInsights_filter_two (wc wl mc : Totals) (budget : ℚ) :
    (generateInsights wc wl mc budget).filter (fun i => rank i == 2)
      = (topInsights mc.categoryTotals).filter (fun i => rank i == 2) := by
  unfold generateInsights
  rw [List.filter_append, List.filter_append,
    weeklyInsights_filter_not_zero wc wl _ (fun z => by simp [rank]),
    budgetInsights_filter_not_one budget mc _ (fun z q => by simp [rank])]
  simp

lemma budgetInsights_of_pos (b : ℚ) (m : Totals) (hb : 0 < b) :
    budgetInsights b m =
      (if 0 ≤ b - m.total ∧ m.total / b * 100 < 80 then
          [Insight.budgetExcellent (round (m.total / b * 100)) (b - m.total)]
       else if b - m.total < 0 then [Insight.budgetCritical |b - m.total|]
       else [Insight.budgetCaution (round (m.total / b * 100))]) := by
  simp only [budgetInsights]
  rw [if_pos hb]
  split_ifs with h1 h2 h3 <;> try rfl
  exfalso
  push_neg at h1 h2 h3
  exact absurd (h1 h2) (not_le.mpr h3)

lemma budgetInsights_length (b : ℚ) (m : Totals) : (budgetInsights b m).length = 1 := by
  by_cases hb : 0 < b
  · rw [budgetInsights_of_pos b m hb]
    split_ifs <;> rfl
  · unfold budgetInsights
    rw [if_neg hb]
    rfl

/-- C2: every invocation emits exactly one budget-status message; with a
positive budget it is the excellent/critical/caution variant determined by
`remaining = budget - total` and `percentUsed = total / budget * 100`
(first match wins), and with no budget set (0) it is the fixed tip. -/
theorem budget_status_exactly_one (wc wl mc : Totals) (budget : ℚ) :
    ((generateInsights wc wl mc budget).filter (fun i => rank i == 1)).length = 1
    ∧ (0 < budget →
        (generateInsights wc wl mc budget).filter (fun i => rank i == 1) =
          (if 0 ≤ budget - mc.total ∧ mc.total / budget * 100 < 80 then
              [Insight.budgetExcellent (round (mc.total / budget * 100)) (budget - mc.total)]
           else if budget - mc.total < 0 then [Insight.budgetCritical |budget - mc.total|]
           else [Insight.budgetCaution (round (mc.total / budget * 100))]))
    ∧ (budget = 0 →
        (generateInsights wc wl mc budget).filter (fun i => rank i == 1)
          = [Insight.setBudgetTip]) := by
  rw [generateInsights_filter_one]
  refine ⟨budgetInsights_length budget mc, fun hb => budgetInsights_of_pos budget mc hb, ?_⟩
  intro hb
  unfold budgetInsights
  rw [if_neg (by rw [hb]; exact lt_irrefl 0)]

/-- Witness for C2 at end-to-end scenario B: budget 15000, current month
total 5000; the excellent variant with 33% used and 10000 remaining. -/
theorem budget_status_exactly_one_witness :
    (0 : ℚ) < 15000
    ∧ (generateInsights ⟨0, []⟩ ⟨0, []⟩ ⟨5000, []⟩ 15000).filter (fun i => rank i == 1)
        = [Insight.budgetExcellent 33 10000] := by
  refine ⟨by norm_num, ?_⟩
  rw [(budget_status_exactly_one ⟨0, []⟩ ⟨0, []⟩ ⟨5000, []⟩ 15000).2.1 (by norm_num)]
  norm_num [round_eq]

/-- C3: weekly-comparison behaviour.  The nonnegativity hypotheses hold
for totals of records with positive amounts (spec invariant
`amount > 0`), making "nonzero total" coincide with the source's
`total > 0` guard. -/
theorem weekly_comparison_cases (wc wl mc : Totals) (budget : ℚ)
    (hc : 0 ≤ wc.total) (hl : 0 ≤ wl.total) :
    ((wc.total ≠ 0 ∧ wl.total ≠ 0) →
      (generateInsights wc wl mc budget).filter (fun i => rank i == 0) =
        (if 0 < wc.total - wl.total then
            [Insight.weeklyHigher (round (|wc.total - wl.total| / wl.total * 100))]
         else if wc.total - wl.total < 0 then
            [Insight.weeklyLower (round (|wc.total - wl.total| / wl.total * 100))]
         else []))
    ∧ ((wc.total ≠ 0 ∧ wl.total = 0) →
      (generateInsights wc wl mc budget).filter (fun i => rank i == 0)
        = [Insight.startComparing])
    ∧ (wc.total = 0 →
      (generateInsights wc wl mc budget).filter (fun i => rank i == 0) = []) := by
  simp only [generateInsights_filter_zero]
  refine ⟨?_, ?_, ?_⟩
  · rintro ⟨h1, h2⟩
    have hc' : 0 < wc.total := lt_of_le_of_ne hc (Ne.symm h1)
    have hl' : 0 < wl.total := lt_of_le_of_ne hl (Ne.symm h2)
    simp only [weeklyInsights, if_pos (⟨hc', hl'⟩ : wc.total > 0 ∧ wl.total > 0)]
  · rintro ⟨h1, h2⟩
    have hc' : 0 < wc.total := lt_of_le_of_ne hc (Ne.symm h1)
    simp only [weeklyInsights]
    rw [if_neg (by simp [h2]), if_pos ⟨hc', h2⟩]
  · intro h0
    simp only [weeklyInsights]
    rw [if_neg (by simp [h0]), if_neg (by simp [h0])]

/-- Witness for C3 at end-to-end scenario D: current week 1000, last
week 500; a "higher than last week" warning with 100 percent. -/
theorem weekly_comparison_cases_witness :
    (0 : ℚ) ≤ 1000 ∧ (0 : ℚ) ≤ 500
    ∧ (generateInsights ⟨1000, []⟩ ⟨500, []⟩ ⟨0, []⟩ 0).filter (fun i => rank i == 0)
        = [Insight.weeklyHigher 100] := by
  refine ⟨by norm_num, by norm_num, ?_⟩
  have h := (weekly_comparison_cases ⟨1000, []⟩ ⟨500, []⟩ ⟨0, []⟩ 0
    (by norm_num) (by norm_num)).1 ⟨by norm_num, by norm_num⟩
  rw [h]
  norm_num [round_eq]

/-! ### Helper lemmas for the insight ordering -/

lemma rank_of_mem_weekly {c l : Totals} {i : Insight} (h : i ∈ weeklyInsights c l) :
    rank i = 0 := by
  simp only [weeklyInsights] at h
  split_ifs at h <;> simp_all [rank]

lemma rank_of_mem_budget {b : ℚ} {m : Totals} {i : Insight} (h : i ∈ budgetInsights b m) :
    rank i = 1 := by
  simp only [budgetInsights] at h
  split_ifs at h <;> simp_all [rank]

lemma rank_of_mem_top {ct : List (String × ℚ)} {i : Insight} (h : i ∈ topInsights ct) :
    2 ≤ rank i := by
  unfold topInsights at h
  cases htc : topCategoryOf ct with
  | none => rw [htc] at h; simp at h
  | some t =>
    rw [htc] at h
    dsimp only at h
    split_ifs at h
    · rcases List.mem_cons.mp h with rfl | h2
      · norm_num [rank]
      · rcases List.mem_singleton.mp h2 with rfl
        norm_num [rank]
    · rcases List.mem_singleton.mp h with rfl
      norm_num [rank]

lemma pairwise_weekly (c l : Totals) :
    (weeklyInsights c l).Pairwise (fun a b => rank a ≤ rank b) := by
  simp only [weeklyInsights]
  split_ifs <;> simp

lemma pairwise_budget (b : ℚ) (m : Totals) :
    (budgetInsights b m).Pairwise (fun a b => rank a ≤ rank b) := by
  simp only [budgetInsights]
  split_ifs <;> simp

lemma pairwise_top (ct : List (String × ℚ)) :
    (topInsights ct).Pairwise (fun a b => rank a ≤ rank b) := by
  unfold topInsights
  cases topCategoryOf ct with
  | none => simp
  | some t =>
    dsimp only
    split_ifs <;> simp [rank]

/-- C8: `generateInsights` always returns its messages ordered by the
fixed rule sequence (weekly comparison, then the budget status, then the
top-category observation, then the savings suggestion), with exactly one
budget-status message. -/
theorem generateInsights_order (wc wl mc : Totals) (budget : ℚ) :
    (generateInsights wc wl mc budget).Pairwise (fun a b => rank a ≤ rank b)
    ∧ ((generateInsights wc wl mc budget).filter (fun i => rank i == 1)).length = 1 := by
  constructor
  · unfold generateInsights
    rw [List.pairwise_append, List.pairwise_append]
    refine ⟨⟨pairwise_weekly wc wl, pairwise_budget budget mc, ?_⟩,
      pairwise_top mc.categoryTotals, ?_⟩
    · intro a ha b hb
      rw [rank_of_mem_weekly ha]
      exact Nat.zero_le _
    · intro a ha b hb
      have hb2 := rank_of_mem_top hb
      rcases List.mem_append.mp ha with h | h
      · rw [rank_of_mem_weekly h]
        exact Nat.zero_le _
      · rw [rank_of_mem_budget h]
        omega
  · rw [generateInsights_filter_one]
    exact budgetInsights_length budget mc

/-! ### The top-category reduce picks the last maximal key -/

lemma top_reduce_split (v : String → ℚ) :
    ∀ (ks l1 l2 : List String) (a : String),
      (∀ k ∈ l1, v k ≤ v a) → (∀ k ∈ l2, v k < v a) →
      ∃ m1 m2,
        l1 ++ a :: (l2 ++ ks)
            = m1 ++ ks.foldl (fun x y => if v x > v y then x else y) a :: m2
        ∧ (∀ k ∈ m1, v k ≤ v (ks.foldl (fun x y => if v x > v y then x else y) a))
        ∧ ∀ k ∈ m2, v k < v (ks.foldl (fun x y => if v x > v y then x else y) a) := by
  intro ks
  induction ks with
  | nil =>
    intro l1 l2 a h1 h2
    exact ⟨l1, l2, by simp, h1, h2⟩
  | cons b ks ih =>
    intro l1 l2 a h1 h2
    rw [List.foldl_cons]
    by_cases hab : v a > v b
    · rw [if_pos hab]
      have hb' : ∀ k ∈ l2 ++ [b], v k < v a := by
        intro k hk
        rcases List.mem_append.mp hk with h | h
        · exact h2 k h
        · rcases List.mem_singleton.mp h with rfl
          exact hab
      obtain ⟨m1, m2, hs, hm1, hm2⟩ := ih l1 (l2 ++ [b]) a h1 hb'
      refine ⟨m1, m2, ?_, hm1, hm2⟩
      rw [← hs]
      simp
    · rw [if_neg hab]
      push_neg at hab
      have h1' : ∀ k ∈ l1 ++ a :: l2, v k ≤ v b := by
        intro k hk
        rcases List.mem_append.mp hk with h | h
        · exact le_trans (h1 k h) hab
        · rcases List.mem_cons.mp h with rfl | h
          · exact hab
          · exact le_trans (le_of_lt (h2 k h)) hab
      obtain ⟨m1, m2, hs, hm1, hm2⟩ := ih (l1 ++ a :: l2) [] b h1' (by simp)
      refine ⟨m1, m2, ?_, hm1, hm2⟩
      rw [← hs]
      simp

/-- C1 (amended): when the current month has records, the top-category
insight names a category of maximal summed amount, but among tied maxima
the LAST category in the mapping's insertion/iteration order wins (every
key before the winner has value `≤` and every key after it has value
`<`); with no current-month records no top-category insight is emitted. -/
theorem top_category_insight_last_tie (wc wl mc : Totals) (budget : ℚ) :
    (mc.categoryTotals = [] →
      (generateInsights wc wl mc budget).filter (fun i => rank i == 2) = [])
    ∧ (mc.categoryTotals ≠ [] →
      ∃ t l1 l2,
        (generateInsights wc wl mc budget).filter (fun i => rank i == 2)
            = [Insight.topCategory t (lookupD mc.categoryTotals t)]
        ∧ mc.categoryTotals.map Prod.fst = l1 ++ t :: l2
        ∧ (∀ k ∈ l1, lookupD mc.categoryTotals k ≤ lookupD mc.categoryTotals t)
        ∧ (∀ k ∈ l2, lookupD mc.categoryTotals k < lookupD mc.categoryTotals t)) := by
  simp only [generateInsights_filter_two]
  constructor
  · intro h0
    unfold topInsights topCategoryOf
    rw [h0]
    rfl
  · intro hne
    obtain ⟨p, rest, hcons⟩ : ∃ p rest, mc.categoryTotals = p :: rest := by
      cases hc : mc.categoryTotals with
      | nil => exact absurd hc hne
      | cons p rest => exact ⟨p, rest, rfl⟩
    obtain ⟨k0, v0⟩ := p
    have htop : topCategoryOf mc.categoryTotals
        = some ((rest.map Prod.fst).foldl
            (fun a b =>
              if lookupD mc.categoryTotals a > lookupD mc.categoryTotals b then a else b)
            k0) := by
      simp only [topCategoryOf, hcons, List.map_cons]
    obtain ⟨m1, m2, hs, hm1, hm2⟩ :=
      top_reduce_split (lookupD mc.categoryTotals) (rest.map Prod.fst) [] [] k0
        (by simp) (by simp)
    set t : String := (rest.map Prod.fst).foldl
        (fun a b =>
          if lookupD mc.categoryTotals a > lookupD mc.categoryTotals b then a else b)
        k0 with ht
    refine ⟨t, m1, m2, ?_, ?_, hm1, hm2⟩
    · unfold topInsights
      rw [htop]
      dsimp only
      split_ifs <;> rfl
    · rw [hcons, List.map_cons]
      simpa using hs

/-- Counterexample to C1 as stated: with two categories tied for the
maximum (`Food` then `Transport`, both 10), the emitted top-category
insight names `Transport`, the LAST key in insertion order, not the
first (`Food`). -/
theorem top_category_tie_counterexample :
    Insight.topCategory "Transport" 10 ∈
        generateInsights ⟨0, []⟩ ⟨0, []⟩ ⟨20, [("Food", 10), ("Transport", 10)]⟩ 0
    ∧ Insight.topCategory "Food" 10 ∉
        generateInsights ⟨0, []⟩ ⟨0, []⟩ ⟨20, [("Food", 10), ("Transport", 10)]⟩ 0 := by
  decide

/-- Witness for C1 (amended) on a tied mapping: the insight names the
last tied key. -/
theorem top_category_insight_last_tie_witness :
    ((Totals.mk 20 [("Food", 10), ("Transport", 10)]).categoryTotals ≠ [])
    ∧ ∃ t l1 l2,
        (generateInsights ⟨0, []⟩ ⟨0, []⟩ ⟨20, [("Food", 10), ("Transport", 10)]⟩ 0).filter
            (fun i => rank i == 2)
          = [Insight.topCategory t
              (lookupD (Totals.mk 20 [("Food", 10), ("Transport", 10)]).categoryTotals t)]
        ∧ (Totals.mk 20 [("Food", 10), ("Transport", 10)]).categoryTotals.map Prod.fst
            = l1 ++ t :: l2
        ∧ (∀ k ∈ l1,
            lookupD (Totals.mk 20 [("Food", 10), ("Transport", 10)]).categoryTotals k
              ≤ lookupD (Totals.mk 20 [("Food", 10), ("Transport", 10)]).categoryTotals t)
        ∧ (∀ k ∈ l2,
            lookupD (Totals.mk 20 [("Food", 10), ("Transport", 10)]).categoryTotals k
              < lookupD (Totals.mk 20 [("Food", 10), ("Transport", 10)]).categoryTotals t) :=
  ⟨by decide,
   (top_category_insight_last_tie ⟨0, []⟩ ⟨0, []⟩
      ⟨20, [("Food", 10), ("Transport", 10)]⟩ 0).2 (by decide)⟩

/-! ### The budget store -/

lemma lookupD_setEntry (l : List (String × ℚ)) (k k' : String) (v : ℚ) :
    lookupD (setEntry l k v) k' = if k = k' then v else lookupD l k' := by
  induction l with
  | nil => simp [setEntry, lookupD]
  | cons p rest ih =>
    obtain ⟨a, b⟩ := p
    by_cases hak : a = k
    · subst hak
      by_cases hk' : a = k'
      · subst hk'
        simp [setEntry, lookupD]
      · simp [setEntry, lookupD, hk']
    · by_cases hk' : a = k'
      · subst hk'
        simp [setEntry, lookupD, hak, Ne.symm hak]
      · simp [setEntry, lookupD, hak, hk', ih]

/-- C10: `setBudget` with an invalid type returns false and leaves the
budgets unchanged; with type `monthly` or `weekly` it returns true,
overwrites the `(type, key)` entry with the amount, and every other
`(type, key)` pair reads back unchanged. -/
theorem setBudget_spec (b : Budgets) (type key : String) (amount : ℚ) :
    ((type ≠ "monthly" ∧ type ≠ "weekly") → setBudget b type key amount = (false, b))
    ∧ ((type = "monthly" ∨ type = "weekly") →
        (setBudget b type key amount).1 = true
        ∧ getBudget (setBudget b type key amount).2 type key = amount
        ∧ ∀ t k : String, ¬(t = type ∧ k = key) →
            getBudget (setBudget b type key amount).2 t k = getBudget b t k) := by
  constructor
  · intro h
    unfold setBudget
    rw [if_pos h]
  · rintro (h | h)
    · subst h
      have hstep : setBudget b "monthly" key amount
          = (true, { b with monthly := setEntry b.monthly key amount }) := by
        unfold setBudget
        rw [if_neg (by simp), if_pos rfl]
      rw [hstep]
      refine ⟨rfl, ?_, ?_⟩
      · unfold getBudget
        rw [if_pos rfl]
        dsimp only
        rw [lookupD_setEntry]
        simp
      · intro t k htk
        unfold getBudget
        by_cases ht : t = "monthly"
        · subst ht
          rw [if_pos rfl, if_pos rfl]
          dsimp only
          rw [lookupD_setEntry]
          exact if_neg (fun hk => htk ⟨rfl, hk.symm⟩)
        · rw [if_neg ht, if_neg ht]
    · subst h
      have hstep : setBudget b "weekly" key amount
          = (true, { b with weekly := setEntry b.weekly key amount }) := by
        unfold setBudget
        rw [if_neg (by simp), if_neg (by simp)]
      rw [hstep]
      refine ⟨rfl, ?_, ?_⟩
      · unfold getBudget
        rw [if_neg (by simp), if_pos rfl]
        dsimp only
        rw [lookupD_setEntry]
        simp
      · intro t k htk
        unfold getBudget
        by_cases ht : t = "monthly"
        · subst ht
          rw [if_pos rfl, if_pos rfl]
        · rw [if_neg ht, if_neg ht]
          by_cases ht2 : t = "weekly"
          · subst ht2
            rw [if_pos rfl, if_pos rfl]
            dsimp only
            rw [lookupD_setEntry]
            exact if_neg (fun hk => htk ⟨rfl, hk.symm⟩)
          · rw [if_neg ht2, if_neg ht2]

/-- Witness for C10: setting a monthly budget on the empty store returns
true and reads back. -/
theorem setBudget_spec_witness :
    (("monthly" = "monthly" ∨ ("monthly" : String) = "weekly")
    ∧ (setBudget ⟨[], []⟩ "monthly" "2025-10" 15000).1 = true
    ∧ getBudget (setBudget ⟨[], []⟩ "monthly" "2025-10" 15000).2 "monthly" "2025-10" = 15000) :=
  ⟨Or.inl rfl,
   ((setBudget_spec ⟨[], []⟩ "monthly" "2025-10" 15000).2 (Or.inl rfl)).1,
   ((setBudget_spec ⟨[], []⟩ "monthly" "2025-10" 15000).2 (Or.inl rfl)).2.1⟩

end ExpenseTracker
